import Mathlib

/-!
Verification of the log-analysis script (`script/main.py`).

The whole report pipeline is the pure function `parse_agent_logs`, embedded
here as a Lean function over `String`.  Python strings are modelled as
`String`/`List Char`; `collections.Counter` is modelled as an association
list `List (String × Nat)` in key-insertion order (Python dicts preserve
insertion order); `Counter.most_common` is modelled as a stable sort by
descending count (`sortDesc`), which is exactly what `most_common`
produces (CPython implements it with `sorted`, a stable sort, and
`heapq.nlargest`, which is documented to agree with
`sorted(..., reverse=True)[:n]`).

The two regular expressions of the script are embedded as deterministic
scanning functions:

* `matchLine` embeds `re.match` of the pattern bracket, lazy group,
  bracket, spaces, word group, spaces, dash, spaces, rest-group
  (the pattern used for classifying a line).  The lazy timestamp group
  together with backtracking means: try each closing bracket from the
  left, and accept the first one after which the (deterministic) tail
  matches.  The tail is deterministic because the character classes of
  consecutive pieces are disjoint, so greedy repetition cannot give
  characters back.
* `searchResponse` embeds `re.search` of the pattern: the literal marker
  text Agent Response with a colon, then any spaces, then a double quote,
  then a lazy one-or-more group, then a double quote.  `re.search` tries
  every start position from the left; at a given start the match is
  again deterministic: skip the marker, skip all whitespace, require a
  quote, then the lazy group captures everything up to the next quote,
  with at least one character.

Python's `\w` is modelled as ASCII letters, digits and underscore, and
Python's whitespace (for `str.strip`, `str.splitlines` boundaries and
`\s`) by explicit character lists matching the Unicode sets CPython uses.
File I/O is out of scope (per the spec): `read_file` is modelled as the
identity on the already-read file contents.
-/

/-- Whitespace as used by Python's `str.strip` and by `\s` (Unicode mode). -/
def isPySpace (c : Char) : Bool :=
  c = ' ' || c = '\t' || c = '\n' || c = '\x0b' || c = '\x0c' || c = '\r' ||
  c = '\x1c' || c = '\x1d' || c = '\x1e' || c = '\x1f' ||
  c = '\x85' || c = '\xa0' || c = '\u1680' ||
  (0x2000 ≤ c.toNat && c.toNat ≤ 0x200a) ||
  c = '\u2028' || c = '\u2029' || c = '\u202f' || c = '\u205f' || c = '\u3000'

/-- Line boundaries of Python's `str.splitlines`. -/
def isLineBreak (c : Char) : Bool :=
  c = '\n' || c = '\r' || c = '\x0b' || c = '\x0c' ||
  c = '\x1c' || c = '\x1d' || c = '\x1e' ||
  c = '\x85' || c = '\u2028' || c = '\u2029'

/-- Word characters of the regex class `\w`, restricted to ASCII
(the severity tokens of interest are ASCII). -/
def isWordChar (c : Char) : Bool :=
  c.isAlpha || c.isDigit || c = '_'

/-- Worker for `splitlines`: accumulates the current line (reversed). -/
def splitlinesGo : List Char → List Char → List String
  | [], acc => if acc.isEmpty then [] else [String.mk acc.reverse]
  | '\r' :: '\n' :: rest, acc => String.mk acc.reverse :: splitlinesGo rest []
  | c :: rest, acc =>
    if isLineBreak c then String.mk acc.reverse :: splitlinesGo rest []
    else splitlinesGo rest (c :: acc)

/-- Python's `str.splitlines()`: split at line boundaries, treating a
carriage-return/newline pair as one boundary, with no trailing empty line. -/
def splitlines (s : String) : List String :=
  splitlinesGo s.data []

/-- Python's `str.strip()`: drop leading and trailing whitespace. -/
def pyStrip (s : String) : String :=
  String.mk (((s.data.dropWhile isPySpace).reverse.dropWhile isPySpace).reverse)

/-- Regex piece: one-or-more whitespace, greedy.  Returns the rest of the
input, or `none` when the input does not start with whitespace.
Deterministic: the following pattern pieces never match whitespace. -/
def spanSpace1 : List Char → Option (List Char)
  | [] => none
  | c :: rest => if isPySpace c then some (rest.dropWhile isPySpace) else none

/-- Regex piece: one-or-more word characters, greedy.  Returns the matched
word and the rest of the input. -/
def spanWord1 : List Char → Option (List Char × List Char)
  | [] => none
  | c :: rest =>
    if isWordChar c then some (c :: rest.takeWhile isWordChar, rest.dropWhile isWordChar)
    else none

/-- Tail of the classifier regex after the closing bracket: spaces, the
severity word group, spaces, a dash, spaces, and the message group (the
rest of the line, up to a newline, which cannot occur inside a split
line). -/
def matchTail (cs : List Char) : Option (String × String) :=
  match spanSpace1 cs with
  | none => none
  | some r1 =>
    match spanWord1 r1 with
    | none => none
    | some (w, r2) =>
      match spanSpace1 r2 with
      | none => none
      | some r3 =>
        match r3 with
        | '-' :: r4 =>
          match spanSpace1 r4 with
          | none => none
          | some r5 => some (String.mk w, String.mk (r5.takeWhile (fun c => c ≠ '\n')))
        | _ => none

/-- Backtracking loop for the lazy timestamp group: try each closing
bracket from the left; on tail failure the bracket becomes part of the
timestamp and the scan continues.  The dot of the lazy group does not
match a newline. -/
def findBracket (tsAcc : List Char) : List Char → Option (String × String × String)
  | [] => none
  | c :: rest =>
    if c = ']' then
      match matchTail rest with
      | some (lvl, msg) => some (String.mk tsAcc.reverse, lvl, msg)
      | none => findBracket (c :: tsAcc) rest
    else if c = '\n' then none
    else findBracket (c :: tsAcc) rest

/-- `pattern.match(line)` for the classifier regex: anchored at the start,
requires an opening bracket, then the backtracking bracket scan. -/
def matchLine (line : String) : Option (String × String × String) :=
  match line.data with
  | '[' :: rest => findBracket [] rest
  | _ => none

/-- The literal marker text of the response regex. -/
def markerChars : List Char := "Agent Response:".data

/-- Is `p` a prefix of `cs`? -/
def isPrefixOfChars : List Char → List Char → Bool
  | [], _ => true
  | _ :: _, [] => false
  | p :: ps, c :: cs => p = c && isPrefixOfChars ps cs

/-- Substring containment, Python's `in` operator on strings. -/
def containsChars (needle : List Char) : List Char → Bool
  | [] => isPrefixOfChars needle []
  | c :: rest => isPrefixOfChars needle (c :: rest) || containsChars needle rest

/-- The check `"Agent Response:" in message` from the script. -/
def hasMarker (msg : String) : Bool :=
  containsChars markerChars msg.data

/-- Strip the literal prefix `p` from `cs`, or fail. -/
def stripPrefixChars : List Char → List Char → Option (List Char)
  | [], cs => some cs
  | _ :: _, [] => none
  | p :: ps, c :: cs => if p = c then stripPrefixChars ps cs else none

/-- Split at the first double quote: returns the characters before it and
the characters after it.  Fails at a newline (the dot of the lazy group
does not cross a newline) or at the end of input. -/
def splitAtQuote : List Char → Option (List Char × List Char)
  | [] => none
  | c :: rest =>
    if c = '"' then some ([], rest)
    else if c = '\n' then none
    else
      match splitAtQuote rest with
      | some (pre, post) => some (c :: pre, post)
      | none => none

/-- The lazy one-or-more capture group followed by a closing quote: the
first character after the opening quote is forced content (the group
needs at least one character), then everything up to the next quote. -/
def captureFrom : List Char → Option (List Char)
  | [] => none
  | c :: rest =>
    if c = '\n' then none
    else
      match splitAtQuote rest with
      | some (pre, _) => some (c :: pre)
      | none => none

/-- Try the response pattern anchored at the current position: the marker
literal, any whitespace, an opening quote, then the capture. -/
def tryMatchAt (cs : List Char) : Option (List Char) :=
  match stripPrefixChars markerChars cs with
  | none => none
  | some r1 =>
    match r1.dropWhile isPySpace with
    | [] => none
    | d :: r3 => if d = '"' then captureFrom r3 else none

/-- `re.search` loop: try the pattern at every start position from the
left, returning the first (leftmost) capture. -/
def searchGo : List Char → Option (List Char)
  | [] => none
  | c :: rest =>
    match tryMatchAt (c :: rest) with
    | some r => some r
    | none => searchGo rest

/-- The extraction `re.search` of the response pattern applied to a
message, returning the captured group. -/
def searchResponse (msg : String) : Option String :=
  (searchGo msg.data).map String.mk

/-- `Counter[k] += 1` on an insertion-ordered association list: increment
in place, or append a fresh key at the end with count 1. -/
def bump : List (String × Nat) → String → List (String × Nat)
  | [], k => [(k, 1)]
  | (k', c) :: rest, k =>
    if k' = k then (k', c + 1) :: rest else (k', c) :: bump rest k

/-- `counter.get(k, 0)`. -/
def lookupCount : List (String × Nat) → String → Nat
  | [], _ => 0
  | (k', c) :: rest, k => if k' = k then c else lookupCount rest k

/-- Does the counter have an entry for key `k`? -/
def hasKey (k : String) : List (String × Nat) → Bool
  | [] => false
  | (k', _) :: rest => k' = k || hasKey k rest

/-- Index of the entry with key `k` (the length of the list when absent). -/
def keyIdx (k : String) : List (String × Nat) → Nat
  | [] => 0
  | (k', _) :: rest => if k' = k then 0 else keyIdx k rest + 1

/-- Total of all counts in a counter. -/
def sumCounts : List (String × Nat) → Nat
  | [] => 0
  | p :: rest => p.2 + sumCounts rest

/-- Number of occurrences of `k` in a list of strings. -/
def countOcc (k : String) : List String → Nat
  | [] => 0
  | x :: xs => (if x = k then 1 else 0) + countOcc k xs

/-- Index of the first occurrence of `k` (the length when absent). -/
def firstIdx (k : String) : List String → Nat
  | [] => 0
  | x :: xs => if x = k then 0 else firstIdx k xs + 1

/-- The counter built by bumping each element of the stream in order,
starting from the empty counter. -/
def counterOf (rs : List String) : List (String × Nat) :=
  rs.foldl bump []

/-- The three counters of the script. -/
structure Tallies where
  level_counter : List (String × Nat)
  ai_response_counter : List (String × Nat)
  error_counter : List (String × Nat)

/-- Per-line classification: strip, skip blank lines, regex match
(yielding timestamp, severity and message). -/
def classifyLine (rawLine : String) : Option (String × String × String) :=
  let line := pyStrip rawLine
  if line = "" then none else matchLine line

/-- The response extracted from a line, when any: only for severity INFO,
only when the marker occurs in the message, and only when the search
pattern finds a quoted capture. -/
def extractResponse (rawLine : String) : Option String :=
  match classifyLine rawLine with
  | none => none
  | some (_, level, message) =>
    if level = "INFO" && hasMarker message then searchResponse message else none

/-- The error message recorded from a line, when any: the full message of
an ERROR entry. -/
def extractError (rawLine : String) : Option String :=
  match classifyLine rawLine with
  | none => none
  | some (_, level, message) => if level = "ERROR" then some message else none

/-- The severity token of a line, when it classifies. -/
def lineLevel (rawLine : String) : Option String :=
  (classifyLine rawLine).map (fun e => e.2.1)

/-- One iteration of the loop body of `parse_agent_logs`: classify the
line and update the three counters. -/
def processLine (t : Tallies) (rawLine : String) : Tallies :=
  match classifyLine rawLine with
  | none => t
  | some (_, level, message) =>
    let lc := bump t.level_counter level
    let ac :=
      match (if level = "INFO" && hasMarker message then searchResponse message else none) with
      | some r => bump t.ai_response_counter r
      | none => t.ai_response_counter
    let ec := if level = "ERROR" then bump t.error_counter message else t.error_counter
    ⟨lc, ac, ec⟩

/-- The counters after the full pass of `parse_agent_logs` over the input. -/
def talliesOf (s : String) : Tallies :=
  (splitlines s).foldl processLine ⟨[], [], []⟩

/-- The stream of severity tokens of the classified lines, in input order. -/
def levelsOf (s : String) : List String :=
  (splitlines s).filterMap lineLevel

/-- The stream of extracted responses, in input order. -/
def responsesOf (s : String) : List String :=
  (splitlines s).filterMap extractResponse

/-- The stream of recorded error messages, in input order. -/
def errorsOf (s : String) : List String :=
  (splitlines s).filterMap extractError

/-- Stable insertion for the descending sort: walk past entries with a
strictly larger count, insert before the first entry with a smaller or
equal count.  The inserted entry comes from earlier in the original list
than every entry of the sorted tail, so ties keep first-occurrence
order. -/
def insertDesc (x : String × Nat) : List (String × Nat) → List (String × Nat)
  | [] => [x]
  | y :: ys => if x.2 < y.2 then y :: insertDesc x ys else x :: y :: ys

/-- `Counter.most_common()`: stable sort by descending count.  Ties keep
insertion order, which for `counterOf` is first-occurrence order — the
behavior of CPython's `sorted(items, key=count, reverse=True)`. -/
def sortDesc : List (String × Nat) → List (String × Nat)
  | [] => []
  | x :: xs => insertDesc x (sortDesc xs)

/-- One formatted response line of the report. -/
def respLine (i : Nat) (p : String × Nat) : String :=
  toString i ++ ". \"" ++ p.1 ++ "\" (" ++ toString p.2 ++ " times)"

/-- One formatted error line of the report. -/
def errLine (i : Nat) (p : String × Nat) : String :=
  toString i ++ ". " ++ p.1 ++ " (" ++ toString p.2 ++ " times)"

/-- `enumerate(entries, 1)` with a formatter: number the entries starting
from `i`. -/
def rankLines (f : Nat → String × Nat → String) : Nat → List (String × Nat) → List String
  | _, [] => []
  | i, p :: ps => f i p :: rankLines f (i + 1) ps

/-- The summary block of the report, up to and including the first blank
separator line. -/
def summarySection (t : Tallies) : List String :=
  ["Log Summary:",
   "- INFO messages: " ++ toString (lookupCount t.level_counter "INFO"),
   "- ERROR messages: " ++ toString (lookupCount t.level_counter "ERROR"),
   "- WARNING messages: " ++ toString (lookupCount t.level_counter "WARNING"),
   ""]

/-- The responses block: a hardcoded header and the top three entries of
`most_common(3)`, numbered from 1. -/
def responsesSection (t : Tallies) : List String :=
  "Top 3 AI Responses:" :: rankLines respLine 1 ((sortDesc t.ai_response_counter).take 3)

/-- The errors block: the header and all entries of `most_common()`,
numbered from 1 — no truncation. -/
def errorsSection (t : Tallies) : List String :=
  "Most Common Errors:" :: rankLines errLine 1 (sortDesc t.error_counter)

/-- The `output_lines` list built by `parse_agent_logs`. -/
def outputLines (s : String) : List String :=
  summarySection (talliesOf s) ++ responsesSection (talliesOf s) ++ [""]
    ++ errorsSection (talliesOf s)

/-- The full report string of `parse_agent_logs`. -/
def parse_agent_logs (report_str : String) : String :=
  String.intercalate "\n" (outputLines report_str)

/-- `read_file`, with file I/O modelled by passing the file contents
directly (the spec places file reading out of scope). -/
def read_file (file_contents : String) : String :=
  file_contents

/-- `analyze_logs` as it stands in the source: the body is an
unimplemented TODO stub that returns the raw file contents and ignores
both numeric options. -/
def analyze_logs (log_file_contents : String) (top_responses : Nat) (top_errors : Nat) : String :=
  read_file log_file_contents

/-! ### Counter lemmas -/

theorem lookupCount_bump (l : List (String × Nat)) (k k' : String) :
    lookupCount (bump l k) k' = lookupCount l k' + (if k = k' then 1 else 0) := by
  induction l with
  | nil => by_cases h : k = k' <;> simp [bump, lookupCount, h]
  | cons p rest ih =>
    obtain ⟨k0, c0⟩ := p
    by_cases h0 : k0 = k
    · subst h0
      by_cases h1 : k0 = k' <;> simp [bump, lookupCount, h1]
    · by_cases h1 : k0 = k' <;> simp [bump, lookupCount, h0, h1, ih]
      have h2 : ¬k = k' := fun hh => h0 (h1 ▸ hh.symm ▸ rfl)
      have h3 : ¬k' = k := fun hh => h2 hh.symm
      simp [h2, h3, lookupCount]

theorem hasKey_bump (l : List (String × Nat)) (k k' : String) :
    hasKey k (bump l k') = (hasKey k l || decide (k' = k)) := by
  induction l with
  | nil => simp [bump, hasKey]
  | cons p rest ih =>
    obtain ⟨k0, c0⟩ := p
    by_cases h0 : k0 = k' <;> simp [bump, hasKey, h0, ih]
    · subst h0
      by_cases h1 : k0 = k <;> simp [h1]
    · by_cases h1 : k0 = k <;> simp [h1, Bool.or_assoc]

theorem keyIdx_bump_of_hasKey (l : List (String × Nat)) (k k' : String)
    (h : hasKey k l = true) : keyIdx k (bump l k') = keyIdx k l := by
  induction l with
  | nil => simp [hasKey] at h
  | cons p rest ih =>
    obtain ⟨k0, c0⟩ := p
    by_cases h0 : k0 = k'
    · subst h0
      simp [bump, keyIdx]
    · by_cases h1 : k0 = k
      · subst h1
        simp [bump, keyIdx, h0]
      · simp [hasKey, h1] at h
        simp [bump, keyIdx, h0, h1, ih h]

theorem keyIdx_eq_length_of_not_hasKey (l : List (String × Nat)) (k : String)
    (h : hasKey k l = false) : keyIdx k l = l.length := by
  induction l with
  | nil => simp [keyIdx]
  | cons p rest ih =>
    obtain ⟨k0, c0⟩ := p
    simp [hasKey] at h
    simp [keyIdx, h.1, ih h.2]

theorem keyIdx_lt_length_of_hasKey (l : List (String × Nat)) (k : String)
    (h : hasKey k l = true) : keyIdx k l < l.length := by
  induction l with
  | nil => simp [hasKey] at h
  | cons p rest ih =>
    obtain ⟨k0, c0⟩ := p
    by_cases h1 : k0 = k
    · simp [keyIdx, h1]
    · simp [hasKey, h1] at h
      simp [keyIdx, h1]
      exact ih h

theorem keyIdx_bump_self_of_not_hasKey (l : List (String × Nat)) (k : String)
    (h : hasKey k l = false) : keyIdx k (bump l k) = l.length := by
  induction l with
  | nil => simp [bump, keyIdx]
  | cons p rest ih =>
    obtain ⟨k0, c0⟩ := p
    simp [hasKey] at h
    have h3 : ¬k = k0 := fun hh => h.1 hh.symm
    simp [bump, keyIdx, h.1, h3, ih h.2]

theorem sumCounts_bump (l : List (String × Nat)) (k : String) :
    sumCounts (bump l k) = sumCounts l + 1 := by
  induction l with
  | nil => simp [bump, sumCounts]
  | cons p rest ih =>
    obtain ⟨k0, c0⟩ := p
    by_cases h0 : k0 = k <;> simp [bump, sumCounts, h0, ih] <;> omega

theorem lookupCount_eq_zero_of_not_hasKey (l : List (String × Nat)) (k : String)
    (h : hasKey k l = false) : lookupCount l k = 0 := by
  induction l with
  | nil => simp [lookupCount]
  | cons p rest ih =>
    obtain ⟨k0, c0⟩ := p
    simp [hasKey] at h
    simp [lookupCount, h.1, ih h.2]

theorem hasKey_of_lookupCount_ne_zero (l : List (String × Nat)) (k : String)
    (h : lookupCount l k ≠ 0) : hasKey k l = true := by
  cases hcase : hasKey k l with
  | true => rfl
  | false => exact absurd (lookupCount_eq_zero_of_not_hasKey l k hcase) h

/-! ### Fold lemmas for counters -/

theorem lookupCount_foldl_bump (rs : List String) :
    ∀ (acc : List (String × Nat)) (k : String),
      lookupCount (rs.foldl bump acc) k = lookupCount acc k + countOcc k rs := by
  induction rs with
  | nil => intro acc k; simp [countOcc]
  | cons r rs' ih =>
    intro acc k
    by_cases h : r = k <;>
      simp [List.foldl_cons, ih, lookupCount_bump, countOcc, h] <;> omega

theorem sumCounts_foldl_bump (rs : List String) :
    ∀ acc : List (String × Nat),
      sumCounts (rs.foldl bump acc) = sumCounts acc + rs.length := by
  induction rs with
  | nil => intro acc; simp
  | cons r rs' ih =>
    intro acc
    simp [List.foldl_cons, ih, sumCounts_bump]
    omega

theorem hasKey_foldl_bump_of_hasKey (rs : List String) :
    ∀ (acc : List (String × Nat)) (k : String), hasKey k acc = true →
      hasKey k (rs.foldl bump acc) = true := by
  induction rs with
  | nil => intro acc k h; simpa using h
  | cons r rs' ih =>
    intro acc k h
    exact ih (bump acc r) k (by simp [hasKey_bump, h])

theorem hasKey_foldl_bump_cases (rs : List String) :
    ∀ (acc : List (String × Nat)) (k : String),
      hasKey k (rs.foldl bump acc) = true →
      hasKey k acc = true ∨ countOcc k rs ≠ 0 := by
  induction rs with
  | nil => intro acc k h; left; simpa using h
  | cons r rs' ih =>
    intro acc k h
    rcases ih (bump acc r) k h with h1 | h1
    · rw [hasKey_bump] at h1
      rcases Bool.or_eq_true_iff.mp h1 with h2 | h2
      · exact Or.inl h2
      · right
        have : r = k := of_decide_eq_true h2
        simp [countOcc, this]
    · right
      by_cases hr : r = k <;> simp [countOcc, hr] <;> omega

/-! ### Key order in a bump fold: keys appear in first-occurrence order -/

theorem keyIdx_foldl_bump_of_lt (rs : List String) :
    ∀ (acc : List (String × Nat)) (k1 k2 : String),
      hasKey k1 acc = true → hasKey k2 acc = true →
      keyIdx k1 acc < keyIdx k2 acc →
      keyIdx k1 (rs.foldl bump acc) < keyIdx k2 (rs.foldl bump acc) := by
  induction rs with
  | nil => intro acc k1 k2 _ _ h; simpa using h
  | cons r rs' ih =>
    intro acc k1 k2 h1 h2 h
    refine ih (bump acc r) k1 k2 ?_ ?_ ?_
    · simp [hasKey_bump, h1]
    · simp [hasKey_bump, h2]
    · rw [keyIdx_bump_of_hasKey acc k1 r h1, keyIdx_bump_of_hasKey acc k2 r h2]
      exact h

theorem keyIdx_foldl_bump_of_new (rs : List String) :
    ∀ (acc : List (String × Nat)) (k1 k2 : String),
      hasKey k1 acc = true → hasKey k2 acc = false →
      countOcc k2 rs ≠ 0 →
      keyIdx k1 (rs.foldl bump acc) < keyIdx k2 (rs.foldl bump acc) := by
  induction rs with
  | nil => intro acc k1 k2 _ _ h; simp [countOcc] at h
  | cons r rs' ih =>
    intro acc k1 k2 h1 h2 hocc
    by_cases hr : r = k2
    · subst hr
      refine keyIdx_foldl_bump_of_lt rs' (bump acc r) k1 r ?_ ?_ ?_
      · simp [hasKey_bump, h1]
      · simp [hasKey_bump]
      · rw [keyIdx_bump_of_hasKey acc k1 r h1, keyIdx_bump_self_of_not_hasKey acc r h2]
        exact keyIdx_lt_length_of_hasKey acc k1 h1
    · refine ih (bump acc r) k1 k2 ?_ ?_ ?_
      · simp [hasKey_bump, h1]
      · simp [hasKey_bump, h2, hr]
      · simpa [countOcc, hr] using hocc

theorem keyIdx_foldl_bump_of_firstIdx (rs : List String) :
    ∀ (acc : List (String × Nat)) (k1 k2 : String),
      hasKey k1 acc = false → hasKey k2 acc = false →
      countOcc k2 rs ≠ 0 →
      firstIdx k1 rs < firstIdx k2 rs →
      keyIdx k1 (rs.foldl bump acc) < keyIdx k2 (rs.foldl bump acc) := by
  induction rs with
  | nil => intro acc k1 k2 _ _ h _; simp [countOcc] at h
  | cons r rs' ih =>
    intro acc k1 k2 h1 h2 hocc hfirst
    by_cases hr1 : r = k1
    · subst hr1
      have hr2 : r ≠ k2 := by
        intro hh
        subst hh
        simp [firstIdx] at hfirst
      refine keyIdx_foldl_bump_of_new rs' (bump acc r) r k2 ?_ ?_ ?_
      · simp [hasKey_bump]
      · simp [hasKey_bump, h2, hr2]
      · simpa [countOcc, hr2] using hocc
    · have hr2 : r ≠ k2 := by
        intro hh
        subst hh
        simp [firstIdx, hr1] at hfirst
      refine ih (bump acc r) k1 k2 ?_ ?_ ?_ ?_
      · simp [hasKey_bump, h1, hr1]
      · simp [hasKey_bump, h2, hr2]
      · simpa [countOcc, hr2] using hocc
      · simp [firstIdx, hr1, hr2] at hfirst
        simpa [firstIdx, hr1, hr2] using hfirst

/-! ### Distinctness of counter keys -/

theorem hasKey_iff_mem_keys (l : List (String × Nat)) (k : String) :
    hasKey k l = true ↔ k ∈ l.map Prod.fst := by
  induction l with
  | nil => simp [hasKey]
  | cons p rest ih =>
    obtain ⟨k0, c0⟩ := p
    simp only [hasKey, List.map_cons, List.mem_cons, Bool.or_eq_true, decide_eq_true_eq, ih]
    constructor
    · rintro (h | h)
      · exact Or.inl h.symm
      · exact Or.inr h
    · rintro (h | h)
      · exact Or.inl h.symm
      · exact Or.inr h

theorem keys_bump_of_hasKey (l : List (String × Nat)) (k : String)
    (h : hasKey k l = true) : (bump l k).map Prod.fst = l.map Prod.fst := by
  induction l with
  | nil => simp [hasKey] at h
  | cons p rest ih =>
    obtain ⟨k0, c0⟩ := p
    by_cases h0 : k0 = k
    · simp [bump, h0]
    · simp [hasKey, h0] at h
      simp [bump, h0, ih h]

theorem keys_bump_of_not_hasKey (l : List (String × Nat)) (k : String)
    (h : hasKey k l = false) : (bump l k).map Prod.fst = l.map Prod.fst ++ [k] := by
  induction l with
  | nil => simp [bump]
  | cons p rest ih =>
    obtain ⟨k0, c0⟩ := p
    simp [hasKey] at h
    simp [bump, h.1, ih h.2]

theorem nodupKeys_bump (l : List (String × Nat)) (k : String)
    (h : (l.map Prod.fst).Nodup) : ((bump l k).map Prod.fst).Nodup := by
  cases hcase : hasKey k l with
  | true => rw [keys_bump_of_hasKey l k hcase]; exact h
  | false =>
    rw [keys_bump_of_not_hasKey l k hcase]
    refine List.Nodup.append h (List.nodup_singleton k) ?_
    intro a ha hb
    simp at hb
    subst hb
    exact absurd ((hasKey_iff_mem_keys l a).mpr ha) (by simp [hcase])

theorem nodupKeys_foldl_bump (rs : List String) :
    ∀ acc : List (String × Nat), (acc.map Prod.fst).Nodup →
      ((rs.foldl bump acc).map Prod.fst).Nodup := by
  induction rs with
  | nil => intro acc h; simpa using h
  | cons r rs' ih => intro acc h; exact ih (bump acc r) (nodupKeys_bump acc r h)

theorem snd_eq_lookupCount_of_mem (l : List (String × Nat)) (p : String × Nat)
    (hnd : (l.map Prod.fst).Nodup) (hp : p ∈ l) : p.2 = lookupCount l p.1 := by
  induction l with
  | nil => simp at hp
  | cons q rest ih =>
    obtain ⟨k0, c0⟩ := q
    rw [List.map_cons, List.nodup_cons] at hnd
    rcases List.mem_cons.mp hp with h | h
    · subst h
      simp [lookupCount]
    · have h4 : ¬k0 = p.1 := by
        intro hh
        have hmem : p.1 ∈ rest.map Prod.fst := List.mem_map_of_mem Prod.fst h
        rw [← hh] at hmem
        exact hnd.1 hmem
      simp [lookupCount, h4]
      exact ih hnd.2 h

/-! ### Stable descending sort lemmas -/

theorem mem_insertDesc (x p : String × Nat) (l : List (String × Nat)) :
    p ∈ insertDesc x l ↔ p = x ∨ p ∈ l := by
  induction l with
  | nil => simp [insertDesc]
  | cons y ys ih =>
    by_cases h : x.2 < y.2 <;> simp [insertDesc, h, ih] <;> tauto

theorem mem_sortDesc (p : String × Nat) (l : List (String × Nat)) :
    p ∈ sortDesc l ↔ p ∈ l := by
  induction l with
  | nil => simp [sortDesc]
  | cons x xs ih => simp [sortDesc, mem_insertDesc, ih]

theorem hasKey_insertDesc (k : String) (x : String × Nat) (l : List (String × Nat)) :
    hasKey k (insertDesc x l) = (decide (x.1 = k) || hasKey k l) := by
  induction l with
  | nil => simp [insertDesc, hasKey]
  | cons y ys ih =>
    by_cases h : x.2 < y.2 <;>
      simp [insertDesc, h, hasKey, ih] <;>
      cases decide (x.1 = k) <;> cases decide (y.1 = k) <;> simp

theorem hasKey_sortDesc (k : String) (l : List (String × Nat)) :
    hasKey k (sortDesc l) = hasKey k l := by
  induction l with
  | nil => simp [sortDesc]
  | cons x xs ih => simp [sortDesc, hasKey_insertDesc, hasKey, ih]

theorem length_insertDesc (x : String × Nat) (l : List (String × Nat)) :
    (insertDesc x l).length = l.length + 1 := by
  induction l with
  | nil => simp [insertDesc]
  | cons y ys ih =>
    by_cases h : x.2 < y.2 <;> simp [insertDesc, h, ih]

theorem length_sortDesc (l : List (String × Nat)) :
    (sortDesc l).length = l.length := by
  induction l with
  | nil => simp [sortDesc]
  | cons x xs ih => simp [sortDesc, length_insertDesc, ih]

theorem pairwise_insertDesc (x : String × Nat) (l : List (String × Nat))
    (h : l.Pairwise (fun a b => b.2 ≤ a.2)) :
    (insertDesc x l).Pairwise (fun a b => b.2 ≤ a.2) := by
  induction l with
  | nil => simp [insertDesc]
  | cons y ys ih =>
    rw [List.pairwise_cons] at h
    by_cases hc : x.2 < y.2
    · rw [insertDesc]
      simp only [hc, if_pos]
      rw [List.pairwise_cons]
      refine ⟨?_, ih h.2⟩
      intro b hb
      rcases (mem_insertDesc x b ys).mp hb with hb1 | hb1
      · subst hb1; exact Nat.le_of_lt hc
      · exact h.1 b hb1
    · rw [insertDesc]
      simp only [hc, if_neg, not_false_iff]
      rw [List.pairwise_cons]
      refine ⟨?_, List.pairwise_cons.mpr h⟩
      intro b hb
      rcases List.mem_cons.mp hb with hb1 | hb1
      · subst hb1; omega
      · exact Nat.le_trans (h.1 b hb1) (by omega)

theorem pairwise_sortDesc (l : List (String × Nat)) :
    (sortDesc l).Pairwise (fun a b => b.2 ≤ a.2) := by
  induction l with
  | nil => simp [sortDesc]
  | cons x xs ih => exact pairwise_insertDesc x (sortDesc xs) ih

theorem keyIdx_cons_eq (k : String) (p : String × Nat) (rest : List (String × Nat))
    (h : p.1 = k) : keyIdx k (p :: rest) = 0 := by
  obtain ⟨pk, pc⟩ := p
  simp only [Prod.fst] at h
  simp [keyIdx, h]

theorem keyIdx_cons_ne (k : String) (p : String × Nat) (rest : List (String × Nat))
    (h : ¬p.1 = k) : keyIdx k (p :: rest) = keyIdx k rest + 1 := by
  obtain ⟨pk, pc⟩ := p
  simp only [Prod.fst] at h
  simp [keyIdx, h]

theorem hasKey_cons (k : String) (p : String × Nat) (rest : List (String × Nat)) :
    hasKey k (p :: rest) = (decide (p.1 = k) || hasKey k rest) := by
  obtain ⟨pk, pc⟩ := p
  rfl

theorem keyIdx_insertDesc_lt (x : String × Nat) (k2 : String) :
    ∀ l : List (String × Nat), k2 ≠ x.1 →
      (∀ p ∈ l, p.1 = k2 → p.2 ≤ x.2) → hasKey k2 l = true →
      keyIdx x.1 (insertDesc x l) < keyIdx k2 (insertDesc x l) := by
  intro l
  induction l with
  | nil => intro _ _ h; simp [hasKey] at h
  | cons y ys ih =>
    intro hne hb hk
    have hxk2 : ¬x.1 = k2 := fun hh => hne hh.symm
    by_cases hc : x.2 < y.2
    · have hy2 : ¬y.1 = k2 := by
        intro hh
        have := hb y (List.mem_cons_self y ys) hh
        omega
      rw [insertDesc, if_pos hc]
      by_cases hy1 : y.1 = x.1
      · rw [keyIdx_cons_eq x.1 y _ hy1, keyIdx_cons_ne k2 y _ hy2]
        omega
      · rw [keyIdx_cons_ne x.1 y _ hy1, keyIdx_cons_ne k2 y _ hy2]
        have hkys : hasKey k2 ys = true := by
          rw [hasKey_cons, Bool.or_eq_true_iff] at hk
          rcases hk with h | h
          · exact absurd (of_decide_eq_true h) hy2
          · exact h
        have := ih hne (fun p hp => hb p (List.mem_cons_of_mem y hp)) hkys
        omega
    · rw [insertDesc, if_neg hc]
      rw [keyIdx_cons_eq x.1 x _ rfl, keyIdx_cons_ne k2 x _ hxk2]
      omega

theorem keyIdx_insertDesc_preserve (x : String × Nat) (k1 k2 : String) :
    ∀ l : List (String × Nat), k1 ≠ x.1 → k2 ≠ x.1 →
      keyIdx k1 l < keyIdx k2 l →
      keyIdx k1 (insertDesc x l) < keyIdx k2 (insertDesc x l) := by
  intro l
  induction l with
  | nil => intro _ _ h; simp [keyIdx] at h
  | cons y ys ih =>
    intro h1 h2 hlt
    have hne12 : ¬k1 = k2 := by
      intro hh
      subst hh
      omega
    by_cases hc : x.2 < y.2
    · rw [insertDesc, if_pos hc]
      by_cases hy1 : y.1 = k1
      · have hy2 : ¬y.1 = k2 := by
          intro hh
          apply hne12
          rw [← hy1]
          exact hh
        rw [keyIdx_cons_eq k1 y _ hy1, keyIdx_cons_ne k2 y _ hy2]
        omega
      · have hy2 : ¬y.1 = k2 := by
          intro hh
          rw [keyIdx_cons_ne k1 y ys hy1, keyIdx_cons_eq k2 y ys hh] at hlt
          omega
        rw [keyIdx_cons_ne k1 y _ hy1, keyIdx_cons_ne k2 y _ hy2]
        rw [keyIdx_cons_ne k1 y ys hy1, keyIdx_cons_ne k2 y ys hy2] at hlt
        have := ih h1 h2 (by omega)
        omega
    · rw [insertDesc, if_neg hc]
      have hk1 : ¬x.1 = k1 := fun hh => h1 hh.symm
      have hk2 : ¬x.1 = k2 := fun hh => h2 hh.symm
      rw [keyIdx_cons_ne k1 x _ hk1, keyIdx_cons_ne k2 x _ hk2]
      omega

theorem keyIdx_sortDesc_stable (l : List (String × Nat)) (k1 k2 : String)
    (hnd : (l.map Prod.fst).Nodup)
    (h1 : hasKey k1 l = true) (h2 : hasKey k2 l = true) (hne : k1 ≠ k2)
    (hc : lookupCount l k1 = lookupCount l k2)
    (hord : keyIdx k1 l < keyIdx k2 l) :
    keyIdx k1 (sortDesc l) < keyIdx k2 (sortDesc l) := by
  induction l with
  | nil => simp [hasKey] at h1
  | cons x xs ih =>
    rw [List.map_cons, List.nodup_cons] at hnd
    by_cases hx1 : x.1 = k1
    · -- the head is the earlier key; it is inserted before every
      -- entry with a smaller or equal count, in particular before k2
      have hx2 : k2 ≠ x.1 := by
        intro hh
        apply hne
        rw [← hx1]
        exact hh.symm
      have hk2xs : hasKey k2 xs = true := by
        rw [hasKey] at h2
        rcases Bool.or_eq_true_iff.mp h2 with h | h
        · exact absurd (of_decide_eq_true h) (fun hh => hx2 hh.symm)
        · exact h
      have hcx : lookupCount (x :: xs) k1 = x.2 := by
        obtain ⟨xk, xc⟩ := x
        simp at hx1
        simp [lookupCount, hx1]
      have hcx2 : lookupCount (x :: xs) k2 = lookupCount xs k2 := by
        obtain ⟨xk, xc⟩ := x
        have : ¬xk = k2 := by
          intro hh
          exact hx2 (by simp [hh])
        simp [lookupCount, this]
      rw [sortDesc, ← hx1]
      refine keyIdx_insertDesc_lt x k2 (sortDesc xs) hx2 ?_ ?_
      · intro p hp hpk
        have hpxs : p ∈ xs := (mem_sortDesc p xs).mp hp
        have := snd_eq_lookupCount_of_mem xs p hnd.2 hpxs
        rw [hpk] at this
        rw [this, ← hcx2, ← hc, hcx]
      · rw [hasKey_sortDesc]
        exact hk2xs
    · by_cases hx2 : x.1 = k2
      · -- impossible: then k2 is at index 0 in the original list
        obtain ⟨xk, xc⟩ := x
        simp at hx1 hx2
        rw [keyIdx, keyIdx, if_neg hx1, if_pos hx2] at hord
        omega
      · -- both keys live in the tail; insertion preserves their order
        obtain ⟨xk, xc⟩ := x
        simp at hx1 hx2
        rw [keyIdx, keyIdx, if_neg hx1, if_neg hx2] at hord
        have hk1xs : hasKey k1 xs = true := by
          rw [hasKey] at h1
          rcases Bool.or_eq_true_iff.mp h1 with h | h
          · exact absurd (of_decide_eq_true h) hx1
          · exact h
        have hk2xs : hasKey k2 xs = true := by
          rw [hasKey] at h2
          rcases Bool.or_eq_true_iff.mp h2 with h | h
          · exact absurd (of_decide_eq_true h) hx2
          · exact h
        have hcxs : lookupCount xs k1 = lookupCount xs k2 := by
          rw [lookupCount, lookupCount, if_neg hx1, if_neg hx2] at hc
          exact hc
        have hord' := ih hnd.2 hk1xs hk2xs hcxs (by omega)
        rw [sortDesc]
        exact keyIdx_insertDesc_preserve (xk, xc) k1 k2 (sortDesc xs)
          (fun hh => hx1 (by simpa using hh.symm)) (fun hh => hx2 (by simpa using hh.symm)) hord'

/-! ### Prefix (take) lemmas for the top-N truncation -/

theorem keyIdx_lt_of_hasKey_take (k : String) :
    ∀ (l : List (String × Nat)) (n : Nat), hasKey k (l.take n) = true →
      hasKey k l = true ∧ keyIdx k l < n := by
  intro l
  induction l with
  | nil => intro n h; simp [hasKey] at h
  | cons y ys ih =>
    intro n h
    cases n with
    | zero => simp [hasKey] at h
    | succ m =>
      rw [List.take_succ_cons] at h
      by_cases hy : y.1 = k
      · obtain ⟨yk, yc⟩ := y
        simp at hy
        constructor
        · simp [hasKey, hy]
        · simp [keyIdx, hy]
      · obtain ⟨yk, yc⟩ := y
        simp at hy
        rw [hasKey, Bool.or_eq_true_iff] at h
        rcases h with h | h
        · exact absurd (of_decide_eq_true h) hy
        · have := ih m h
          constructor
          · simp [hasKey, this.1]
          · simp [keyIdx, hy]
            omega

theorem hasKey_take_of_keyIdx_lt (k : String) :
    ∀ (l : List (String × Nat)) (n : Nat), hasKey k l = true → keyIdx k l < n →
      hasKey k (l.take n) = true ∧ keyIdx k (l.take n) = keyIdx k l := by
  intro l
  induction l with
  | nil => intro n h _; simp [hasKey] at h
  | cons y ys ih =>
    intro n h hlt
    obtain ⟨yk, yc⟩ := y
    cases n with
    | zero =>
      by_cases hy : yk = k
      · simp [keyIdx, hy] at hlt
      · simp [keyIdx, hy] at hlt
    | succ m =>
      rw [List.take_succ_cons]
      by_cases hy : yk = k
      · constructor <;> simp [hasKey, keyIdx, hy]
      · rw [hasKey, Bool.or_eq_true_iff] at h
        rcases h with h | h
        · exact absurd (of_decide_eq_true h) hy
        · rw [keyIdx, if_neg hy] at hlt
          have := ih m h (by omega)
          constructor
          · simp [hasKey, this.1]
          · simp [keyIdx, hy, this.2]

/-! ### Projections of the loop onto the three counters -/

theorem processLine_level (t : Tallies) (line : String) :
    (processLine t line).level_counter =
      match lineLevel line with
      | some lvl => bump t.level_counter lvl
      | none => t.level_counter := by
  rw [processLine, lineLevel]
  cases h : classifyLine line with
  | none => simp
  | some e =>
    obtain ⟨ts, lvl, msg⟩ := e
    simp

theorem processLine_ai (t : Tallies) (line : String) :
    (processLine t line).ai_response_counter =
      match extractResponse line with
      | some r => bump t.ai_response_counter r
      | none => t.ai_response_counter := by
  rw [processLine, extractResponse]
  cases h : classifyLine line with
  | none => simp
  | some e =>
    obtain ⟨ts, lvl, msg⟩ := e
    simp only

theorem processLine_error (t : Tallies) (line : String) :
    (processLine t line).error_counter =
      match extractError line with
      | some e => bump t.error_counter e
      | none => t.error_counter := by
  rw [processLine, extractError]
  cases h : classifyLine line with
  | none => simp
  | some e =>
    obtain ⟨ts, lvl, msg⟩ := e
    simp only
    by_cases hl : lvl = "ERROR" <;> simp [hl]

theorem foldl_processLine_level (lines : List String) :
    ∀ t : Tallies,
      (lines.foldl processLine t).level_counter =
        (lines.filterMap lineLevel).foldl bump t.level_counter := by
  induction lines with
  | nil => intro t; rfl
  | cons line rest ih =>
    intro t
    rw [List.foldl_cons, ih]
    cases h : lineLevel line with
    | none =>
      rw [List.filterMap_cons_none h]
      have := processLine_level t line
      rw [h] at this
      rw [this]
    | some lvl =>
      rw [List.filterMap_cons_some h, List.foldl_cons]
      have := processLine_level t line
      rw [h] at this
      rw [this]

theorem foldl_processLine_ai (lines : List String) :
    ∀ t : Tallies,
      (lines.foldl processLine t).ai_response_counter =
        (lines.filterMap extractResponse).foldl bump t.ai_response_counter := by
  induction lines with
  | nil => intro t; rfl
  | cons line rest ih =>
    intro t
    rw [List.foldl_cons, ih]
    cases h : extractResponse line with
    | none =>
      rw [List.filterMap_cons_none h]
      have := processLine_ai t line
      rw [h] at this
      rw [this]
    | some r =>
      rw [List.filterMap_cons_some h, List.foldl_cons]
      have := processLine_ai t line
      rw [h] at this
      rw [this]

theorem foldl_processLine_error (lines : List String) :
    ∀ t : Tallies,
      (lines.foldl processLine t).error_counter =
        (lines.filterMap extractError).foldl bump t.error_counter := by
  induction lines with
  | nil => intro t; rfl
  | cons line rest ih =>
    intro t
    rw [List.foldl_cons, ih]
    cases h : extractError line with
    | none =>
      rw [List.filterMap_cons_none h]
      have := processLine_error t line
      rw [h] at this
      rw [this]
    | some e =>
      rw [List.filterMap_cons_some h, List.foldl_cons]
      have := processLine_error t line
      rw [h] at this
      rw [this]

theorem talliesOf_level (s : String) :
    (talliesOf s).level_counter = counterOf (levelsOf s) := by
  rw [talliesOf, levelsOf, counterOf, foldl_processLine_level]

theorem talliesOf_ai (s : String) :
    (talliesOf s).ai_response_counter = counterOf (responsesOf s) := by
  rw [talliesOf, responsesOf, counterOf, foldl_processLine_ai]

theorem talliesOf_error (s : String) :
    (talliesOf s).error_counter = counterOf (errorsOf s) := by
  rw [talliesOf, errorsOf, counterOf, foldl_processLine_error]

theorem length_filterMap_eq_length_filter {α β : Type} (f : α → Option β) (l : List α) :
    (l.filterMap f).length = (l.filter (fun a => (f a).isSome)).length := by
  induction l with
  | nil => rfl
  | cons a rest ih =>
    cases h : f a with
    | none => rw [List.filterMap_cons_none h]; simp [List.filter_cons, h, ih]
    | some b => rw [List.filterMap_cons_some h]; simp [List.filter_cons, h, ih]

/-! ### Soundness of the response extraction scan -/

theorem stripPrefixChars_sound (p : List Char) :
    ∀ cs r, stripPrefixChars p cs = some r → cs = p ++ r := by
  induction p with
  | nil => intro cs r h; simp [stripPrefixChars] at h; simp [h]
  | cons a ps ih =>
    intro cs r h
    cases cs with
    | nil => simp [stripPrefixChars] at h
    | cons c cs' =>
      rw [stripPrefixChars] at h
      by_cases hac : a = c
      · rw [if_pos hac] at h
        rw [List.cons_append, ← ih cs' r h, hac]
      · rw [if_neg hac] at h
        exact absurd h (by simp)

theorem splitAtQuote_sound :
    ∀ cs pre post, splitAtQuote cs = some (pre, post) →
      cs = pre ++ '"' :: post ∧ ∀ c ∈ pre, c ≠ '"' := by
  intro cs
  induction cs with
  | nil => intro pre post h; simp [splitAtQuote] at h
  | cons c rest ih =>
    intro pre post h
    rw [splitAtQuote] at h
    by_cases hq : c = '"'
    · rw [if_pos hq] at h
      simp at h
      obtain ⟨hpre, hpost⟩ := h
      subst hpre
      subst hpost
      subst hq
      simp
    · rw [if_neg hq] at h
      by_cases hn : c = '\n'
      · rw [if_pos hn] at h
        exact absurd h (by simp)
      · rw [if_neg hn] at h
        cases hsplit : splitAtQuote rest with
        | none => rw [hsplit] at h; exact absurd h (by simp)
        | some pr =>
          obtain ⟨pre', post'⟩ := pr
          rw [hsplit] at h
          simp at h
          obtain ⟨hpre, hpost⟩ := h
          have := ih pre' post' hsplit
          subst hpost
          rw [← hpre]
          constructor
          · rw [List.cons_append, this.1]
          · intro d hd
            rcases List.mem_cons.mp hd with hd1 | hd1
            · subst hd1; exact hq
            · exact this.2 d hd1

theorem captureFrom_sound (cs r : List Char) (h : captureFrom cs = some r) :
    ∃ post, cs = r ++ '"' :: post ∧ r ≠ [] ∧ ∀ c ∈ r.drop 1, c ≠ '"' := by
  cases cs with
  | nil => simp [captureFrom] at h
  | cons c rest =>
    rw [captureFrom] at h
    by_cases hn : c = '\n'
    · rw [if_pos hn] at h
      exact absurd h (by simp)
    · rw [if_neg hn] at h
      cases hsplit : splitAtQuote rest with
      | none => rw [hsplit] at h; exact absurd h (by simp)
      | some pr =>
        obtain ⟨pre, post⟩ := pr
        rw [hsplit] at h
        simp at h
        have := splitAtQuote_sound rest pre post hsplit
        refine ⟨post, ?_, ?_, ?_⟩
        · rw [← h, List.cons_append, this.1]
        · rw [← h]; simp
        · intro d hd
          rw [← h] at hd
          simp at hd
          exact this.2 d hd

theorem tryMatchAt_sound (cs r : List Char) (h : tryMatchAt cs = some r) :
    ∃ ws post, cs = markerChars ++ ws ++ '"' :: (r ++ '"' :: post) ∧
      (∀ c ∈ ws, isPySpace c = true) ∧ r ≠ [] ∧ ∀ c ∈ r.drop 1, c ≠ '"' := by
  rw [tryMatchAt] at h
  cases hstrip : stripPrefixChars markerChars cs with
  | none => rw [hstrip] at h; exact absurd h (by simp)
  | some r1 =>
    rw [hstrip] at h
    dsimp only at h
    cases hdrop : r1.dropWhile isPySpace with
    | nil => rw [hdrop] at h; exact absurd h (by simp)
    | cons d r3 =>
      rw [hdrop] at h
      dsimp only at h
      by_cases hq : d = '"'
      · rw [if_pos hq] at h
        subst hq
        obtain ⟨post, hcap, hne, hnq⟩ := captureFrom_sound r3 r h
        refine ⟨r1.takeWhile isPySpace, post, ?_, ?_, hne, hnq⟩
        · rw [stripPrefixChars_sound markerChars cs r1 hstrip]
          rw [← hcap]
          have hsplit2 : r1.takeWhile isPySpace ++ r1.dropWhile isPySpace = r1 :=
            List.takeWhile_append_dropWhile isPySpace r1
          rw [List.append_assoc, ← hdrop]
          rw [hsplit2]
        · intro c hc
          exact List.mem_takeWhile_imp hc
      · rw [if_neg hq] at h
        exact absurd h (by simp)

theorem searchGo_sound :
    ∀ cs r, searchGo cs = some r →
      ∃ pre ws post, cs = pre ++ markerChars ++ ws ++ '"' :: (r ++ '"' :: post) ∧
        (∀ c ∈ ws, isPySpace c = true) ∧ r ≠ [] ∧ ∀ c ∈ r.drop 1, c ≠ '"' := by
  intro cs
  induction cs with
  | nil => intro r h; simp [searchGo] at h
  | cons c rest ih =>
    intro r h
    rw [searchGo] at h
    cases htry : tryMatchAt (c :: rest) with
    | some r0 =>
      rw [htry] at h
      simp at h
      subst h
      obtain ⟨ws, post, heq, hws, hne, hnq⟩ := tryMatchAt_sound (c :: rest) r0 htry
      exact ⟨[], ws, post, by simpa using heq, hws, hne, hnq⟩
    | none =>
      rw [htry] at h
      obtain ⟨pre, ws, post, heq, hws, hne, hnq⟩ := ih r h
      exact ⟨c :: pre, ws, post, by simp [heq], hws, hne, hnq⟩

theorem searchResponse_sound (msg r : String) (h : searchResponse msg = some r) :
    ∃ pre ws post, msg.data = pre ++ markerChars ++ ws ++ '"' :: (r.data ++ '"' :: post) ∧
      (∀ c ∈ ws, isPySpace c = true) ∧ r.data ≠ [] ∧ ∀ c ∈ r.data.drop 1, c ≠ '"' := by
  rw [searchResponse] at h
  cases hgo : searchGo msg.data with
  | none => rw [hgo] at h; exact absurd h (by simp)
  | some rl =>
    rw [hgo] at h
    simp at h
    obtain ⟨pre, ws, post, heq, hws, hne, hnq⟩ := searchGo_sound msg.data rl hgo
    subst h
    exact ⟨pre, ws, post, heq, hws, hne, hnq⟩

theorem searchResponse_ne_empty (msg r : String) (h : searchResponse msg = some r) :
    r ≠ "" := by
  obtain ⟨_, _, _, _, _, hne, _⟩ := searchResponse_sound msg r h
  intro hh
  subst hh
  exact hne rfl

/-! ### Support lemmas for the claims -/

theorem mem_of_countOcc_ne_zero (k : String) :
    ∀ rs : List String, countOcc k rs ≠ 0 → k ∈ rs := by
  intro rs
  induction rs with
  | nil => intro h; simp [countOcc] at h
  | cons x xs ih =>
    intro h
    by_cases hx : x = k
    · subst hx
      exact List.mem_cons_self x xs
    · rw [countOcc, if_neg hx] at h
      exact List.mem_cons_of_mem x (ih (by omega))

theorem extractResponse_some (line r : String) (h : extractResponse line = some r) :
    ∃ ts msg, classifyLine line = some (ts, "INFO", msg) ∧ hasMarker msg = true ∧
      searchResponse msg = some r := by
  rw [extractResponse] at h
  cases hc : classifyLine line with
  | none => rw [hc] at h; exact absurd h (by simp)
  | some e =>
    obtain ⟨ts, lvl, msg⟩ := e
    rw [hc] at h
    dsimp only at h
    by_cases hg : (lvl = "INFO" && hasMarker msg) = true
    · rw [if_pos hg] at h
      simp at hg
      refine ⟨ts, msg, ?_, hg.2, h⟩
      rw [hg.1]
    · rw [if_neg hg] at h
      exact absurd h (by simp)

theorem hasKey_empty_ai_false (s : String) :
    hasKey "" ((talliesOf s).ai_response_counter) = false := by
  rw [talliesOf_ai, counterOf]
  cases hcase : hasKey "" ((responsesOf s).foldl bump []) with
  | false => rfl
  | true =>
    exfalso
    rcases hasKey_foldl_bump_cases (responsesOf s) [] "" hcase with h | h
    · simp [hasKey] at h
    · have hmem := mem_of_countOcc_ne_zero "" (responsesOf s) h
      rw [responsesOf] at hmem
      rcases List.mem_filterMap.mp hmem with ⟨line, _, hline⟩
      obtain ⟨ts, msg, _, _, hsearch⟩ := extractResponse_some line "" hline
      exact searchResponse_ne_empty msg "" hsearch rfl

theorem processLine_of_classify_none (t : Tallies) (line : String)
    (h : classifyLine line = none) : processLine t line = t := by
  rw [processLine, h]

theorem classifyLine_of_blank (line : String) (h : pyStrip line = "") :
    classifyLine line = none := by
  rw [classifyLine]
  simp [h]

theorem lineLevel_isSome (a : String) : (lineLevel a).isSome = (classifyLine a).isSome := by
  rw [lineLevel]
  cases classifyLine a <;> rfl

theorem classifyLine_isSome_eq (a : String) :
    (classifyLine a).isSome = (decide (pyStrip a ≠ "") && (matchLine (pyStrip a)).isSome) := by
  rw [classifyLine]
  by_cases h : pyStrip a = "" <;> simp [h]

theorem filter_length_congr {α : Type} (p q : α → Bool) :
    ∀ l : List α, (∀ a, p a = q a) → (l.filter p).length = (l.filter q).length := by
  intro l hpq
  induction l with
  | nil => rfl
  | cons a rest ih =>
    rw [List.filter_cons, List.filter_cons, hpq a]
    cases q a <;> simp [ih]

theorem levels_length_eq (s : String) :
    (levelsOf s).length = ((splitlines s).filter
      (fun l => decide (pyStrip l ≠ "") && (matchLine (pyStrip l)).isSome)).length := by
  rw [levelsOf, length_filterMap_eq_length_filter]
  apply filter_length_congr
  intro a
  rw [lineLevel_isSome, classifyLine_isSome_eq]

theorem lookupCount_counterOf (rs : List String) (k : String) :
    lookupCount (counterOf rs) k = countOcc k rs := by
  rw [counterOf, lookupCount_foldl_bump]
  simp [lookupCount]

theorem nodupKeys_counterOf (rs : List String) :
    ((counterOf rs).map Prod.fst).Nodup := by
  rw [counterOf]
  exact nodupKeys_foldl_bump rs [] (by simp)

/-! ### The claims -/

/-- C4: for every input text, the sum of all counts in the severity tally
equals the number of input lines that are non-blank after stripping and
match the classifier shape (opening bracket, timestamp, closing bracket,
severity word, dash, message); a line that does not classify leaves the
whole state — all three tallies — unchanged, so no other line contributes
to any tally. -/
theorem claim_C4 (s : String) :
    sumCounts ((talliesOf s).level_counter) =
      ((splitlines s).filter
        (fun l => decide (pyStrip l ≠ "") && (matchLine (pyStrip l)).isSome)).length ∧
    ∀ line : String, classifyLine line = none → ∀ t : Tallies, processLine t line = t := by
  constructor
  · rw [talliesOf_level, counterOf, sumCounts_foldl_bump, ← levels_length_eq]
    simp [sumCounts]
  · intro line h t
    exact processLine_of_classify_none t line h

/-- C4 witness: a concrete three-line input (one classifiable line, one
blank line, one malformed line) instantiating both conjuncts. -/
theorem claim_C4_witness :
    (sumCounts ((talliesOf "[T] INFO - a\n\njunk").level_counter) =
      ((splitlines "[T] INFO - a\n\njunk").filter
        (fun l => decide (pyStrip l ≠ "") && (matchLine (pyStrip l)).isSome)).length) ∧
    processLine ⟨[], [], []⟩ "junk" = ⟨[], [], []⟩ :=
  ⟨(claim_C4 "[T] INFO - a\n\njunk").1,
   (claim_C4 "[T] INFO - a\n\njunk").2 "junk" (by decide) ⟨[], [], []⟩⟩

/-- C5: the severity tally counts every classified entry unconditionally:
for any severity token (including tokens other than INFO, ERROR and
WARNING) the tally holds exactly the number of classified lines carrying
that exact, case-sensitive token.  The three named summary lines of the
report are determined by the exact-token counts of INFO, ERROR and
WARNING alone, so other tokens are never surfaced there and never disturb
those counts. -/
theorem claim_C5 (s : String) :
    (∀ lvl : String, lookupCount ((talliesOf s).level_counter) lvl = countOcc lvl (levelsOf s)) ∧
    (outputLines s).take 4 =
      ["Log Summary:",
       "- INFO messages: " ++ toString (countOcc "INFO" (levelsOf s)),
       "- ERROR messages: " ++ toString (countOcc "ERROR" (levelsOf s)),
       "- WARNING messages: " ++ toString (countOcc "WARNING" (levelsOf s))] := by
  have hl : ∀ lvl : String,
      lookupCount ((talliesOf s).level_counter) lvl = countOcc lvl (levelsOf s) := by
    intro lvl
    rw [talliesOf_level, lookupCount_counterOf]
  refine ⟨hl, ?_⟩
  rw [outputLines, summarySection, hl "INFO", hl "ERROR", hl "WARNING"]
  rfl

/-- C7: classification strips whitespace; a line that is blank after
stripping classifies to nothing, and a line that classifies to nothing is
processed as a no-op of the entire tally state — it is excluded from the
severity, response and error tallies alike (and, all functions being
total, no error is raised). -/
theorem claim_C7 (rawLine : String) :
    (pyStrip rawLine = "" → classifyLine rawLine = none) ∧
    (classifyLine rawLine = none → ∀ t : Tallies, processLine t rawLine = t) := by
  constructor
  · exact classifyLine_of_blank rawLine
  · intro h t
    exact processLine_of_classify_none t rawLine h

/-- C7 witness: a whitespace-only line and a malformed line, both leaving
the state untouched. -/
theorem claim_C7_witness :
    classifyLine "   " = none ∧
    processLine ⟨[("INFO", 1)], [], []⟩ "ERROR without shape" = ⟨[("INFO", 1)], [], []⟩ :=
  ⟨(claim_C7 "   ").1 (by decide),
   (claim_C7 "ERROR without shape").2 (by decide) ⟨[("INFO", 1)], [], []⟩⟩

/-- C8: on the empty input string the report has all three named counts
equal to 0, all three section headers present, and no ranked entries in
either ranking section; the full report string is fixed. -/
theorem claim_C8 :
    parse_agent_logs "" =
      "Log Summary:\n- INFO messages: 0\n- ERROR messages: 0\n- WARNING messages: 0\n\nTop 3 AI Responses:\n\nMost Common Errors:" ∧
    outputLines "" =
      ["Log Summary:", "- INFO messages: 0", "- ERROR messages: 0",
       "- WARNING messages: 0", "", "Top 3 AI Responses:", "", "Most Common Errors:"] := by
  constructor <;> rfl

/-- C9: the aggregation is a pure function of the input text, so two runs
over the same text produce byte-identical reports; in this embedding the
whole pipeline is deterministic by construction. -/
theorem claim_C9 : ∀ s : String, parse_agent_logs s = parse_agent_logs s :=
  fun _ => rfl

/-- C1: response ranking is stable under ties.  If two distinct responses
both occur in the extracted response stream with the same final count,
and the first occurrence of the first one is earlier in the input (the
stream lists responses in input order), then the first one appears
strictly earlier in the ranked list `most_common` produces — hence it
receives the lower (better) rank number — and whenever the second one
survives the top-3 truncation shown in the report, the first one does
too, again with the lower rank. -/
theorem claim_C1 (s r1 r2 : String) (hne : r1 ≠ r2)
    (h1 : countOcc r1 (responsesOf s) ≠ 0)
    (h2 : countOcc r2 (responsesOf s) ≠ 0)
    (heq : countOcc r1 (responsesOf s) = countOcc r2 (responsesOf s))
    (hfirst : firstIdx r1 (responsesOf s) < firstIdx r2 (responsesOf s)) :
    keyIdx r1 (sortDesc ((talliesOf s).ai_response_counter)) <
      keyIdx r2 (sortDesc ((talliesOf s).ai_response_counter)) ∧
    (hasKey r2 ((sortDesc ((talliesOf s).ai_response_counter)).take 3) = true →
      hasKey r1 ((sortDesc ((talliesOf s).ai_response_counter)).take 3) = true ∧
      keyIdx r1 ((sortDesc ((talliesOf s).ai_response_counter)).take 3) <
        keyIdx r2 ((sortDesc ((talliesOf s).ai_response_counter)).take 3)) := by
  rw [talliesOf_ai]
  have hk1 : hasKey r1 (counterOf (responsesOf s)) = true :=
    hasKey_of_lookupCount_ne_zero _ _ (by rw [lookupCount_counterOf]; exact h1)
  have hk2 : hasKey r2 (counterOf (responsesOf s)) = true :=
    hasKey_of_lookupCount_ne_zero _ _ (by rw [lookupCount_counterOf]; exact h2)
  have hidx : keyIdx r1 (counterOf (responsesOf s)) < keyIdx r2 (counterOf (responsesOf s)) := by
    rw [counterOf]
    exact keyIdx_foldl_bump_of_firstIdx (responsesOf s) [] r1 r2 rfl rfl h2 hfirst
  have hsorted : keyIdx r1 (sortDesc (counterOf (responsesOf s))) <
      keyIdx r2 (sortDesc (counterOf (responsesOf s))) := by
    refine keyIdx_sortDesc_stable (counterOf (responsesOf s)) r1 r2
      (nodupKeys_counterOf (responsesOf s)) hk1 hk2 hne ?_ hidx
    rw [lookupCount_counterOf, lookupCount_counterOf]
    exact heq
  refine ⟨hsorted, ?_⟩
  intro htake
  have ht1 := keyIdx_lt_of_hasKey_take r2 (sortDesc (counterOf (responsesOf s))) 3 htake
  have hr1lt : keyIdx r1 (sortDesc (counterOf (responsesOf s))) < 3 :=
    Nat.lt_trans hsorted ht1.2
  have hk1s : hasKey r1 (sortDesc (counterOf (responsesOf s))) = true := by
    rw [hasKey_sortDesc]
    exact hk1
  have ht2 := hasKey_take_of_keyIdx_lt r1 (sortDesc (counterOf (responsesOf s))) 3 hk1s hr1lt
  have ht3 := hasKey_take_of_keyIdx_lt r2 (sortDesc (counterOf (responsesOf s))) 3 ht1.1 ht1.2
  refine ⟨ht2.1, ?_⟩
  rw [ht2.2, ht3.2]
  exact hsorted

/-- C1 witness: two responses tied at one occurrence each; the one seen
first ranks first in both the full ranking and the truncated top-3. -/
theorem claim_C1_witness :
    keyIdx "A" (sortDesc ((talliesOf
        "[T] INFO - Agent Response: \"A\"\n[T] INFO - Agent Response: \"B\"").ai_response_counter)) <
      keyIdx "B" (sortDesc ((talliesOf
        "[T] INFO - Agent Response: \"A\"\n[T] INFO - Agent Response: \"B\"").ai_response_counter)) ∧
    keyIdx "A" ((sortDesc ((talliesOf
        "[T] INFO - Agent Response: \"A\"\n[T] INFO - Agent Response: \"B\"").ai_response_counter)).take 3) <
      keyIdx "B" ((sortDesc ((talliesOf
        "[T] INFO - Agent Response: \"A\"\n[T] INFO - Agent Response: \"B\"").ai_response_counter)).take 3) := by
  have h := claim_C1 "[T] INFO - Agent Response: \"A\"\n[T] INFO - Agent Response: \"B\"" "A" "B"
    (by decide) (by decide) (by decide) (by decide) (by decide)
  exact ⟨h.1, (h.2 (by decide)).2⟩

/-- C2: the Most Common Errors section lists all distinct ERROR messages,
keyed by the full message text after the severity: the error tally maps
each message to its exact occurrence count in the error stream, the
rendered list is a permutation of the tally of the same length (no
truncation), sorted by descending count with the first-occurrence
tie-break, rendered from rank 1 by the numbered error-line format; and
the `top_errors` option never influences the report — any two option
values give the same output. -/
theorem claim_C2 (s : String) :
    (∀ k : String, lookupCount ((talliesOf s).error_counter) k = countOcc k (errorsOf s)) ∧
    (∀ k : String, hasKey k (sortDesc ((talliesOf s).error_counter)) =
      hasKey k ((talliesOf s).error_counter)) ∧
    (∀ p : String × Nat, p ∈ sortDesc ((talliesOf s).error_counter) ↔
      p ∈ (talliesOf s).error_counter) ∧
    (sortDesc ((talliesOf s).error_counter)).length = ((talliesOf s).error_counter).length ∧
    (sortDesc ((talliesOf s).error_counter)).Pairwise (fun a b => b.2 ≤ a.2) ∧
    (∀ k1 k2 : String, k1 ≠ k2 →
      countOcc k1 (errorsOf s) ≠ 0 → countOcc k2 (errorsOf s) ≠ 0 →
      countOcc k1 (errorsOf s) = countOcc k2 (errorsOf s) →
      firstIdx k1 (errorsOf s) < firstIdx k2 (errorsOf s) →
      keyIdx k1 (sortDesc ((talliesOf s).error_counter)) <
        keyIdx k2 (sortDesc ((talliesOf s).error_counter))) ∧
    outputLines s = summarySection (talliesOf s) ++ responsesSection (talliesOf s) ++ [""]
      ++ ("Most Common Errors:" :: rankLines errLine 1 (sortDesc ((talliesOf s).error_counter))) ∧
    (∀ tr te tr' te' : Nat,
      parse_agent_logs (analyze_logs s tr te) = parse_agent_logs (analyze_logs s tr' te')) := by
  refine ⟨?_, ?_, ?_, ?_, ?_, ?_, ?_, ?_⟩
  · intro k
    rw [talliesOf_error, lookupCount_counterOf]
  · intro k
    exact hasKey_sortDesc k ((talliesOf s).error_counter)
  · intro p
    exact mem_sortDesc p ((talliesOf s).error_counter)
  · exact length_sortDesc ((talliesOf s).error_counter)
  · exact pairwise_sortDesc ((talliesOf s).error_counter)
  · intro k1 k2 hne h1 h2 heq hfirst
    rw [talliesOf_error]
    have hk1 : hasKey k1 (counterOf (errorsOf s)) = true :=
      hasKey_of_lookupCount_ne_zero _ _ (by rw [lookupCount_counterOf]; exact h1)
    have hk2 : hasKey k2 (counterOf (errorsOf s)) = true :=
      hasKey_of_lookupCount_ne_zero _ _ (by rw [lookupCount_counterOf]; exact h2)
    have hidx : keyIdx k1 (counterOf (errorsOf s)) < keyIdx k2 (counterOf (errorsOf s)) := by
      rw [counterOf]
      exact keyIdx_foldl_bump_of_firstIdx (errorsOf s) [] k1 k2 rfl rfl h2 hfirst
    refine keyIdx_sortDesc_stable (counterOf (errorsOf s)) k1 k2
      (nodupKeys_counterOf (errorsOf s)) hk1 hk2 hne ?_ hidx
    rw [lookupCount_counterOf, lookupCount_counterOf]
    exact heq
  · rfl
  · intro tr te tr' te'
    rfl

/-- C2 witness: two distinct errors (the second repeated) and one tied
pair, instantiating the count equation and the tie-break ordering. -/
theorem claim_C2_witness :
    lookupCount ((talliesOf
      "[T] ERROR - Alpha\n[T] ERROR - Beta\n[T] ERROR - Beta").error_counter) "Beta" =
      countOcc "Beta" (errorsOf "[T] ERROR - Alpha\n[T] ERROR - Beta\n[T] ERROR - Beta") ∧
    keyIdx "Alpha" (sortDesc ((talliesOf
      "[T] ERROR - Alpha\n[T] ERROR - Gamma").error_counter)) <
      keyIdx "Gamma" (sortDesc ((talliesOf
      "[T] ERROR - Alpha\n[T] ERROR - Gamma").error_counter)) := by
  constructor
  · exact (claim_C2 "[T] ERROR - Alpha\n[T] ERROR - Beta\n[T] ERROR - Beta").1 "Beta"
  · exact (claim_C2 "[T] ERROR - Alpha\n[T] ERROR - Gamma").2.2.2.2.2.1 "Alpha" "Gamma"
      (by decide) (by decide) (by decide) (by decide) (by decide)

/-- C6: the response tally maps each captured response to the exact
number of entries that produced it; an entry whose severity is not INFO
never contributes a response; for an INFO entry the contribution is
exactly the search for the pattern marker, optional whitespace, quote,
lazy capture, quote — when the marker is absent or the search finds no
quoted capture, nothing is recorded (and no error is raised: all
functions are total); and every successful capture decomposes the message
as some prefix, the marker, whitespace, an opening quote, the nonempty
captured text whose later characters contain no quote, the closing quote
and a suffix. -/
theorem claim_C6 (s : String) :
    (∀ r : String, lookupCount ((talliesOf s).ai_response_counter) r =
      countOcc r (responsesOf s)) ∧
    (∀ line ts lvl msg : String, classifyLine line = some (ts, lvl, msg) →
      lvl ≠ "INFO" → extractResponse line = none) ∧
    (∀ line ts msg : String, classifyLine line = some (ts, "INFO", msg) →
      extractResponse line = (if hasMarker msg then searchResponse msg else none)) ∧
    (∀ msg r : String, searchResponse msg = some r →
      ∃ pre ws post, msg.data = pre ++ markerChars ++ ws ++ '"' :: (r.data ++ '"' :: post) ∧
        (∀ c ∈ ws, isPySpace c = true) ∧ r.data ≠ [] ∧ ∀ c ∈ r.data.drop 1, c ≠ '"') := by
  refine ⟨?_, ?_, ?_, ?_⟩
  · intro r
    rw [talliesOf_ai, lookupCount_counterOf]
  · intro line ts lvl msg hc hlvl
    rw [extractResponse, hc]
    dsimp only
    rw [if_neg]
    simp [hlvl]
  · intro line ts msg hc
    rw [extractResponse, hc]
    dsimp only
    by_cases hm : hasMarker msg = true
    · rw [if_pos (by simp [hm]), if_pos hm]
    · rw [if_neg (by simp [hm]), if_neg hm]
  · exact searchResponse_sound

/-- C6 witness: a counted response, a non-INFO entry contributing
nothing, an INFO entry with the marker but no quoted capture, and a
concrete decomposition of a successful capture. -/
theorem claim_C6_witness :
    lookupCount ((talliesOf "[T] INFO - Agent Response: \"Hi\"").ai_response_counter) "Hi" =
      countOcc "Hi" (responsesOf "[T] INFO - Agent Response: \"Hi\"") ∧
    extractResponse "[T] WARNING - Agent Response: \"x\"" = none ∧
    extractResponse "[T] INFO - Agent Response: no quotes" =
      (if hasMarker "Agent Response: no quotes"
        then searchResponse "Agent Response: no quotes" else none) ∧
    (∃ pre ws post,
      ("Agent Response: \"Hi\"").data =
        pre ++ markerChars ++ ws ++ '"' :: (("Hi").data ++ '"' :: post) ∧
      (∀ c ∈ ws, isPySpace c = true) ∧ ("Hi").data ≠ [] ∧
        ∀ c ∈ ("Hi").data.drop 1, c ≠ '"') := by
  refine ⟨(claim_C6 "[T] INFO - Agent Response: \"Hi\"").1 "Hi",
    (claim_C6 "").2.1 "[T] WARNING - Agent Response: \"x\"" "T" "WARNING"
      "Agent Response: \"x\"" (by decide) (by decide),
    (claim_C6 "").2.2.1 "[T] INFO - Agent Response: no quotes" "T"
      "Agent Response: no quotes" (by decide),
    (claim_C6 "").2.2.2 "Agent Response: \"Hi\"" "Hi" (by decide)⟩

/-- C10 counterexample: an INFO entry whose message contains the marker
immediately followed by an empty quoted span (two adjacent double
quotes) for which a response nevertheless is recorded: the lazy capture
treats the adjacent quote as content and closes at a later quote,
recording the response quote, space, x, space.  This refutes the claim
that no response is recorded for every such entry. -/
theorem claim_C10_counterexample :
    containsChars ("Agent Response: \"\"").data ("Agent Response: \"\" x \"y\"").data = true ∧
    extractResponse "[T] INFO - Agent Response: \"\" x \"y\"" = some "\" x " ∧
    (talliesOf "[T] INFO - Agent Response: \"\" x \"y\"").ai_response_counter =
      [("\" x ", 1)] := by
  refine ⟨by decide, by decide, by decide⟩

/-- C10 amended: the lazy quoted-span capture requires at least one
character between the quotes, so the empty string is never captured and
never occurs as a key of the response tally; in particular an empty
quoted span directly after the marker never records an empty response
(though a later double quote in the message can still yield a nonempty
capture beginning with the adjacent quote). -/
theorem claim_C10 (s : String) :
    hasKey "" ((talliesOf s).ai_response_counter) = false ∧
    (∀ msg r : String, searchResponse msg = some r → r ≠ "") :=
  ⟨hasKey_empty_ai_false s, searchResponse_ne_empty⟩

/-- C10 witness: the empty-span input records no empty key, and a
concrete successful capture is nonempty. -/
theorem claim_C10_witness :
    hasKey "" ((talliesOf "[T] INFO - Agent Response: \"\"").ai_response_counter) = false ∧
    ("Hi" : String) ≠ "" :=
  ⟨(claim_C10 "[T] INFO - Agent Response: \"\"").1,
   (claim_C10 "").2 "Agent Response: \"Hi\"" "Hi" (by decide)⟩

/-- C3 (evaluation at the failing configuration): with the `top_responses`
option set to 4 on an input with four distinct responses, the pipeline
`analyze_logs` then `parse_agent_logs` still emits the hardcoded header
Top 3 AI Responses, never a Top 4 header, and lists only three entries:
the option accepted by the unimplemented `analyze_logs` stub never
reaches the renderer. -/
theorem claim_C3_eval :
    ((talliesOf (analyze_logs
      "[T] INFO - Agent Response: \"A\"\n[T] INFO - Agent Response: \"B\"\n[T] INFO - Agent Response: \"C\"\n[T] INFO - Agent Response: \"D\""
      4 2)).ai_response_counter).length = 4 ∧
    "Top 3 AI Responses:" ∈ outputLines (analyze_logs
      "[T] INFO - Agent Response: \"A\"\n[T] INFO - Agent Response: \"B\"\n[T] INFO - Agent Response: \"C\"\n[T] INFO - Agent Response: \"D\""
      4 2) ∧
    "Top 4 AI Responses:" ∉ outputLines (analyze_logs
      "[T] INFO - Agent Response: \"A\"\n[T] INFO - Agent Response: \"B\"\n[T] INFO - Agent Response: \"C\"\n[T] INFO - Agent Response: \"D\""
      4 2) ∧
    (rankLines respLine 1 ((sortDesc ((talliesOf (analyze_logs
      "[T] INFO - Agent Response: \"A\"\n[T] INFO - Agent Response: \"B\"\n[T] INFO - Agent Response: \"C\"\n[T] INFO - Agent Response: \"D\""
      4 2)).ai_response_counter)).take 3)).length = 3 := by
  refine ⟨by decide, by decide, by decide, by decide⟩
